import Mathlib

/-!
Shallow embedding of `crates/ilp-cli/src/interpreter.rs` from interledger-rs.

The interpreter receives a tree of parsed command-line matches (clap's
`ArgMatches`), dispatches on (category, action), and builds one outbound
HTTP request specification.  We model:

* `RawArguments` — the `args` map of one `ArgMatches` level: each argument
  name maps to the list of its captured values (clap stores present
  arguments only; a flag that takes no value has an empty value list).
  Real `ArgMatches.args` is a `HashMap`, so claims carry a `Nodup`
  hypothesis on the key list.
* `Matches` — one `ArgMatches` node: its argument map plus the optional
  selected subcommand (`ArgMatches::subcommand`).
* `RequestSpec` — what reaches `reqwest` before `.send()`: method, url,
  optional bearer-auth material, and the body (absent, raw string, or a
  JSON-serialized string map).
* Rust panics (`Option::unwrap` on `None`, `HashMap` index on a missing
  key, `panic!`, `unimplemented!`) are embedded as distinct `CliError`
  constructors so they stay distinguishable from the `UsageErr` results the
  source returns as values.
-/

namespace IlpCli

/-- One level of parsed arguments: argument name ↦ captured values
(`ArgMatches.args`).  Keys of the real `HashMap` are unique. -/
abbrev RawArguments := List (String × List String)

/-- The flat string-to-string map handlers serialize as a JSON body
(`HashMap<&str, &str>` in the source). -/
abbrev ArgumentSet := List (String × String)

/-- Lookup in an argument map by name (`HashMap::get` on `ArgMatches.args`). -/
def lookupArg (k : String) : RawArguments → Option (List String)
  | [] => none
  | (k', vs) :: rest => if k' = k then some vs else lookupArg k rest

/-- Lookup in a string-to-string map (`HashMap::get`). -/
def lookupKey (k : String) : ArgumentSet → Option String
  | [] => none
  | (k', v) :: rest => if k' = k then some v else lookupKey k rest

/-- Remove a key from a string map (`HashMap::remove`, keeping the rest). -/
def removeKey : ArgumentSet → String → ArgumentSet
  | [], _ => []
  | (k', v) :: rest, k =>
    if k' = k then removeKey rest k else (k', v) :: removeKey rest k

/-- `ArgMatches::value_of`: the first captured value of the name, if any. -/
def value_of (raw : RawArguments) (k : String) : Option String :=
  (lookupArg k raw).bind List.head?

/-- `ArgMatches::values_of`: all captured values of the name, if present. -/
def values_of (raw : RawArguments) (k : String) : Option (List String) :=
  lookupArg k raw

/-- `ArgMatches::is_present`: whether the name occurs in the match map at
all (flags with no value included). -/
def is_present (raw : RawArguments) (k : String) : Bool :=
  (lookupArg k raw).isSome

/-- The error outcomes of the interpreter.  `usageErr` embeds the source's
`Error::UsageErr` value; the `panic...` constructors embed the distinct
ways the source aborts the process (`unwrap` on a missing auth key,
`HashMap` indexing / `unwrap` on a missing argument, the `panic!` arms of
the dispatch match, and `unimplemented!`). -/
inductive CliError where
  /-- `Error::UsageErr(msg)` returned as a value. -/
  | usageErr (help : String)
  /-- `panic!("Unhandled `{context}` subcommand: {command}")`. -/
  | panicUnhandled (context : String) (command : String)
  /-- `Option::unwrap` panic on `args.remove("authorization_key")` or
  `matches.value_of("authorization_key")` returning `None`. -/
  | panicMissingAuthKey
  /-- `HashMap` index / `Option::unwrap` panic on a missing argument. -/
  | panicMissingArg (key : String)
  /-- `unimplemented!()` in `ws_account_payments_incoming`. -/
  | panicUnimplemented
deriving DecidableEq, Repr

/-- HTTP method of the request being built. -/
inductive Method where
  | get | post | put | delete
deriving DecidableEq, Repr

/-- The request body handed to reqwest: nothing, `.body(raw string)`, or
`.json(map)` (a flat string-to-string JSON object). -/
inductive Body where
  | empty
  | raw (s : String)
  | json (fields : ArgumentSet)
deriving DecidableEq, Repr

/-- The fully-resolved outbound request: everything the source passes to
reqwest before `.send()`.  `bearer = none` means no `bearer_auth` call. -/
structure RequestSpec where
  method : Method
  url : String
  bearer : Option String
  body : Body
deriving DecidableEq, Repr

/-- `extract_args` step 1: keep, for each argument with at least one
captured value, its name paired with the first value (the
`.map(|(&key, val)| (key, val.vals.get(0))).filter(is_some).map(unwrap)`
chain collected into a `HashMap`). -/
def first_vals : RawArguments → ArgumentSet
  | [] => []
  | (k, vs) :: rest =>
    match vs.head? with
    | some v => (k, v) :: first_vals rest
    | none => first_vals rest

/-- `extract_args`: first value of every argument, with
`"authorization_key"` removed from the map and returned separately.  The
source's `args.remove("authorization_key").unwrap()` panics when the key
is absent; that panic is the `panicMissingAuthKey` error here. -/
def extract_args (raw : RawArguments) :
    Except CliError (String × ArgumentSet) :=
  let args := first_vals raw
  match lookupKey "authorization_key" args with
  | some auth => .ok (auth, removeKey args "authorization_key")
  | none => .error .panicMissingAuthKey

/-- The `halves.windows(2).step_by(2)` traversal: consecutive
non-overlapping key/value pairs from the front; a trailing unpaired token
yields no window and is dropped. -/
def chunk_pairs : List String → List (String × String)
  | k :: v :: rest => (k, v) :: chunk_pairs rest
  | _ => []

/-- `HashMap::insert`: overwrite any existing binding of the key. -/
def insert_pair (m : ArgumentSet) (k v : String) : ArgumentSet :=
  removeKey m k ++ [(k, v)]

/-- The `pairs` map `unflatten_pairs` builds from the flat `halve` list:
each 2-window inserted in order, later keys overwriting earlier ones. -/
def build_pairs (halves : List String) : ArgumentSet :=
  (chunk_pairs halves).foldl (fun m kv => insert_pair m kv.1 kv.2) []

/-- `unflatten_pairs`: the pair map from the optional `halve` list (empty
when the argument is absent), plus the auth token.  The source's
`matches.value_of("authorization_key").unwrap()` panics when the key is
absent; that panic is the `panicMissingAuthKey` error here. -/
def unflatten_pairs (raw : RawArguments) :
    Except CliError (String × ArgumentSet) :=
  let pairs :=
    match values_of raw "halve" with
    | some halves => build_pairs halves
    | none => []
  match value_of raw "authorization_key" with
  | some auth => .ok (auth, pairs)
  | none => .error .panicMissingAuthKey

/-- One clap `ArgMatches` node: the argument map of this level plus the
selected subcommand, if any (`ArgMatches::subcommand` returns the
subcommand name and its own `ArgMatches`). -/
inductive Matches where
  | mk (args : RawArguments) (sub : Option (String × Matches))

/-- The argument map of a match node. -/
def Matches.args : Matches → RawArguments
  | .mk a _ => a

/-- The selected subcommand of a match node, if any. -/
def Matches.sub : Matches → Option (String × Matches)
  | .mk _ s => s

/-! ### Per-command handlers (`impl NodeClient`)

Each handler takes the node url and the `args` map of the `ArgMatches` it
receives, and produces the request reqwest would send.  `HashMap` indexing
(`args["k"]`) and `Option::unwrap` on removed values panic when the key is
absent; those panics are `panicMissingArg` errors here. -/

/-- `get_account_balance`: GET {url}/accounts/{username}/balance, bearer
auth, no body; `username` is removed from the extracted map before use. -/
def get_account_balance (url : String) (raw : RawArguments) :
    Except CliError RequestSpec := do
  let (auth, args) ← extract_args raw
  match lookupKey "username" args with
  | some user =>
      .ok ⟨.get, url ++ "/accounts/" ++ user ++ "/balance", some auth, .empty⟩
  | none => .error (.panicMissingArg "username")

/-- `post_or_put_accounts` (`accounts create`): PUT {url}/accounts when the
`overwrite` flag is present, else POST {url}/accounts/{username} with the
username looked up by panicking `HashMap` index; either way bearer auth and
the extracted map (username not removed) as JSON body. -/
def post_or_put_accounts (url : String) (raw : RawArguments) :
    Except CliError RequestSpec := do
  let (auth, args) ← extract_args raw
  if is_present raw "overwrite" then
    .ok ⟨.put, url ++ "/accounts", some auth, .json args⟩
  else
    match lookupKey "username" args with
    | some user =>
        .ok ⟨.post, url ++ "/accounts/" ++ user, some auth, .json args⟩
    | none => .error (.panicMissingArg "username")

/-- `delete_account`: DELETE {url}/accounts/{username}, bearer auth, no
body. -/
def delete_account (url : String) (raw : RawArguments) :
    Except CliError RequestSpec := do
  let (auth, args) ← extract_args raw
  match lookupKey "username" args with
  | some user => .ok ⟨.delete, url ++ "/accounts/" ++ user, some auth, .empty⟩
  | none => .error (.panicMissingArg "username")

/-- `get_account`: GET {url}/accounts/{username}, bearer auth, no body. -/
def get_account (url : String) (raw : RawArguments) :
    Except CliError RequestSpec := do
  let (auth, args) ← extract_args raw
  match lookupKey "username" args with
  | some user => .ok ⟨.get, url ++ "/accounts/" ++ user, some auth, .empty⟩
  | none => .error (.panicMissingArg "username")

/-- `get_accounts`: GET {url}/accounts, bearer auth, no body; the extracted
argument map is discarded. -/
def get_accounts (url : String) (raw : RawArguments) :
    Except CliError RequestSpec := do
  let (auth, _) ← extract_args raw
  .ok ⟨.get, url ++ "/accounts", some auth, .empty⟩

/-- `put_account` (`accounts update --is_admin`): PUT
{url}/accounts/{username}, bearer auth, body = extracted map with
`username` removed. -/
def put_account (url : String) (raw : RawArguments) :
    Except CliError RequestSpec := do
  let (auth, args) ← extract_args raw
  match lookupKey "username" args with
  | some user =>
      .ok ⟨.put, url ++ "/accounts/" ++ user, some auth,
           .json (removeKey args "username")⟩
  | none => .error (.panicMissingArg "username")

/-- `put_account_settings` (`accounts update`): PUT
{url}/accounts/{username}/settings, bearer auth, body = extracted map with
`username` removed. -/
def put_account_settings (url : String) (raw : RawArguments) :
    Except CliError RequestSpec := do
  let (auth, args) ← extract_args raw
  match lookupKey "username" args with
  | some user =>
      .ok ⟨.put, url ++ "/accounts/" ++ user ++ "/settings", some auth,
           .json (removeKey args "username")⟩
  | none => .error (.panicMissingArg "username")

/-- `post_account_payments` (`pay`): POST
{url}/accounts/{sender_username}/payments, bearer auth material
`"{user}:{auth}"`, body = extracted map with `sender_username` removed. -/
def post_account_payments (url : String) (raw : RawArguments) :
    Except CliError RequestSpec := do
  let (auth, args) ← extract_args raw
  match lookupKey "sender_username" args with
  | some user =>
      .ok ⟨.post, url ++ "/accounts/" ++ user ++ "/payments",
           some (user ++ ":" ++ auth),
           .json (removeKey args "sender_username")⟩
  | none => .error (.panicMissingArg "sender_username")

/-- `get_rates`: GET {url}/rates, no bearer auth, no body; the matches are
ignored entirely. -/
def get_rates (url : String) (_raw : RawArguments) :
    Except CliError RequestSpec :=
  .ok ⟨.get, url ++ "/rates", none, .empty⟩

/-- `put_rates` (`rates set-all`): PUT {url}/rates, bearer auth, pair map
as JSON body. -/
def put_rates (url : String) (raw : RawArguments) :
    Except CliError RequestSpec := do
  let (auth, rate_pairs) ← unflatten_pairs raw
  .ok ⟨.put, url ++ "/rates", some auth, .json rate_pairs⟩

/-- `get_routes`: GET {url}/routes, no bearer auth, no body; the matches
are ignored entirely. -/
def get_routes (url : String) (_raw : RawArguments) :
    Except CliError RequestSpec :=
  .ok ⟨.get, url ++ "/routes", none, .empty⟩

/-- `put_route_static` (`routes set`): PUT {url}/routes/static/{prefix},
bearer auth, body = the raw destination string (reqwest `.body(...)`, not
`.json`).  Both lookups are panicking `HashMap` indexes; the url's is
evaluated first in the source. -/
def put_route_static (url : String) (raw : RawArguments) :
    Except CliError RequestSpec := do
  let (auth, args) ← extract_args raw
  match lookupKey "prefix" args with
  | some pre =>
      match lookupKey "destination" args with
      | some dest =>
          .ok ⟨.put, url ++ "/routes/static/" ++ pre, some auth, .raw dest⟩
      | none => .error (.panicMissingArg "destination")
  | none => .error (.panicMissingArg "prefix")

/-- `put_routes_static` (`routes set-all`): PUT {url}/routes/static, bearer
auth, pair map as JSON body. -/
def put_routes_static (url : String) (raw : RawArguments) :
    Except CliError RequestSpec := do
  let (auth, route_pairs) ← unflatten_pairs raw
  .ok ⟨.put, url ++ "/routes/static", some auth, .json route_pairs⟩

/-- `put_settlement_engines` (`settlement-engines set-all`): PUT
{url}/settlement/engines, bearer auth, pair map as JSON body. -/
def put_settlement_engines (url : String) (raw : RawArguments) :
    Except CliError RequestSpec := do
  let (auth, engine_pairs) ← unflatten_pairs raw
  .ok ⟨.put, url ++ "/settlement/engines", some auth, .json engine_pairs⟩

/-- `get_root` (`status`): GET {url}/, no bearer auth, no body; the matches
are ignored entirely. -/
def get_root (url : String) (_raw : RawArguments) :
    Except CliError RequestSpec :=
  .ok ⟨.get, url ++ "/", none, .empty⟩

/-! ### Dispatch (`run`)

The source's nested `match` on subcommand names compares the parsed name
against each string literal in order; we embed that as an if-chain per
category.  The `panic!("Unhandled ... subcommand")` arms become
`panicUnhandled` errors. -/

/-- The `accounts` arm of the dispatch in `run`. -/
def dispatch_accounts (url : String) (m : Matches) :
    Except CliError RequestSpec :=
  match m.sub with
  | some (sub, m2) =>
    if sub = "balance" then get_account_balance url m2.args
    else if sub = "create" then post_or_put_accounts url m2.args
    else if sub = "delete" then delete_account url m2.args
    else if sub = "incoming-payments" then .error .panicUnimplemented
    else if sub = "info" then get_account url m2.args
    else if sub = "list" then get_accounts url m2.args
    else if sub = "update" then
      if is_present m2.args "is_admin" then put_account url m2.args
      else put_account_settings url m2.args
    else .error (.panicUnhandled "ilp-cli accounts" sub)
  | none => .error (.usageErr "ilp-cli help accounts")

/-- The `rates` arm of the dispatch in `run`. -/
def dispatch_rates (url : String) (m : Matches) :
    Except CliError RequestSpec :=
  match m.sub with
  | some (sub, m2) =>
    if sub = "list" then get_rates url m2.args
    else if sub = "set-all" then put_rates url m2.args
    else .error (.panicUnhandled "ilp-cli rates" sub)
  | none => .error (.usageErr "ilp-cli help rates")

/-- The `routes` arm of the dispatch in `run`. -/
def dispatch_routes (url : String) (m : Matches) :
    Except CliError RequestSpec :=
  match m.sub with
  | some (sub, m2) =>
    if sub = "list" then get_routes url m2.args
    else if sub = "set" then put_route_static url m2.args
    else if sub = "set-all" then put_routes_static url m2.args
    else .error (.panicUnhandled "ilp-cli routes" sub)
  | none => .error (.usageErr "ilp-cli help routes")

/-- The `settlement-engines` arm of the dispatch in `run`. -/
def dispatch_settlement_engines (url : String) (m : Matches) :
    Except CliError RequestSpec :=
  match m.sub with
  | some (sub, m2) =>
    if sub = "set-all" then put_settlement_engines url m2.args
    else .error (.panicUnhandled "ilp-cli settlement-engines" sub)
  | none => .error (.usageErr "ilp-cli help settlement-engines")

/-- `run`: read the node url (`--node` has a clap default, so the source
unwraps it; a missing value would panic), then dispatch on the top-level
subcommand.  No subcommand at a level that needs one yields
`Error::UsageErr("ilp-cli help ...")`; an unrecognized name reaching a
`match` arm yields the `panic!("Unhandled ...")` embedded as
`panicUnhandled`. -/
def run (ms : Matches) : Except CliError RequestSpec :=
  match value_of ms.args "node_url" with
  | none => .error (.panicMissingArg "node_url")
  | some url =>
    match ms.sub with
    | some (cmd, m1) =>
      if cmd = "accounts" then dispatch_accounts url m1
      else if cmd = "pay" then post_account_payments url m1.args
      else if cmd = "rates" then dispatch_rates url m1
      else if cmd = "routes" then dispatch_routes url m1
      else if cmd = "settlement-engines" then
        dispatch_settlement_engines url m1
      else if cmd = "status" then get_root url m1.args
      else .error (.panicUnhandled "ilp-cli" cmd)
    | none => .error (.usageErr "ilp-cli help")

instance {e a : Type} [DecidableEq e] [DecidableEq a] :
    DecidableEq (Except e a) := fun x y =>
  match x, y with
  | .ok u, .ok v => decidable_of_iff (u = v) (by simp)
  | .error u, .error v => decidable_of_iff (u = v) (by simp)
  | .ok _, .error _ => isFalse (by simp)
  | .error _, .ok _ => isFalse (by simp)

/-! ### Map lemmas -/

/-- A name absent from the raw map is absent from its first-values map. -/
theorem lookupKey_first_vals_of_not_mem (raw : RawArguments) (k : String)
    (h : k ∉ raw.map Prod.fst) : lookupKey k (first_vals raw) = none := by
  induction raw with
  | nil => rfl
  | cons kv rest ih =>
    obtain ⟨k', vs⟩ := kv
    simp only [List.map_cons, List.mem_cons] at h
    push_neg at h
    have hne : ¬(k' = k) := fun hk => h.1 hk.symm
    cases hvs : vs.head? with
    | some v =>
      simp only [first_vals, hvs, lookupKey]
      rw [if_neg hne]
      exact ih h.2
    | none =>
      simp only [first_vals, hvs]
      exact ih h.2

/-- On a map with unique keys (as `HashMap` guarantees), looking a name up
in the first-values map is taking the first captured value of that name. -/
theorem lookupKey_first_vals (raw : RawArguments) (k : String)
    (hnd : (raw.map Prod.fst).Nodup) :
    lookupKey k (first_vals raw) = value_of raw k := by
  induction raw with
  | nil => rfl
  | cons kv rest ih =>
    obtain ⟨k', vs⟩ := kv
    simp only [List.map_cons, List.nodup_cons] at hnd
    by_cases hk : k' = k
    · subst hk
      cases hvs : vs.head? with
      | some v =>
        simp only [first_vals, hvs, lookupKey, value_of, lookupArg,
          if_pos rfl]
        simp [hvs]
      | none =>
        simp only [first_vals, hvs, value_of, lookupArg, if_pos rfl]
        rw [lookupKey_first_vals_of_not_mem rest k' hnd.1]
        simp [hvs]
    · have hrest := ih hnd.2
      have hval : value_of ((k', vs) :: rest) k = value_of rest k := by
        simp only [value_of, lookupArg]
        rw [if_neg hk]
      rw [hval]
      cases hvs : vs.head? with
      | some v =>
        simp only [first_vals, hvs, lookupKey]
        rw [if_neg hk]
        exact hrest
      | none =>
        simp only [first_vals, hvs]
        exact hrest

/-- Removing a key hides exactly that key and nothing else. -/
theorem lookupKey_removeKey (m : ArgumentSet) (j k : String) :
    lookupKey k (removeKey m j) = if k = j then none else lookupKey k m := by
  induction m with
  | nil =>
    simp only [removeKey, lookupKey]
    exact (ite_self none).symm
  | cons kv rest ih =>
    obtain ⟨k', v⟩ := kv
    simp only [removeKey]
    by_cases hj : k' = j
    · rw [if_pos hj, ih]
      subst hj
      by_cases hk : k = k'
      · rw [if_pos hk, if_pos hk]
      · have hne : ¬(k' = k) := fun h => hk h.symm
        rw [if_neg hk, if_neg hk]
        simp only [lookupKey]
        rw [if_neg hne]
    · rw [if_neg hj]
      simp only [lookupKey]
      by_cases hk : k' = k
      · have hkj : ¬(k = j) := fun h => hj (hk.trans h)
        rw [if_pos hk, if_neg hkj, if_pos hk]
      · rw [if_neg hk, ih]
        by_cases hkj : k = j
        · rw [if_pos hkj, if_pos hkj]
        · rw [if_neg hkj, if_neg hkj, if_neg hk]

/-- Characterization of `extract_args` when the auth key has a captured
value: it succeeds with that first value and the first-values map minus the
auth key. -/
theorem extract_args_eq (raw : RawArguments) (auth : String)
    (hnd : (raw.map Prod.fst).Nodup)
    (hauth : value_of raw "authorization_key" = some auth) :
    extract_args raw =
      .ok (auth, removeKey (first_vals raw) "authorization_key") := by
  have h := lookupKey_first_vals raw "authorization_key" hnd
  rw [hauth] at h
  simp [extract_args, h]

/-- Auth-present extraction: every surviving lookup is the first raw value
of that name, and the auth key itself is gone. -/
theorem extract_args_lookup (raw : RawArguments) (k : String)
    (hnd : (raw.map Prod.fst).Nodup) :
    lookupKey k (removeKey (first_vals raw) "authorization_key") =
      if k = "authorization_key" then none else value_of raw k := by
  rw [lookupKey_removeKey, lookupKey_first_vals raw k hnd]

/-! ### Claim theorems -/

/-- C1: on any raw argument map (unique names, as the parser's `HashMap`
guarantees) in which `authorization_key` has at least one captured value,
`extract_args` returns that name's first captured value unchanged as the
auth token, together with a map that does not contain `authorization_key`
and maps every other name with at least one captured value to its first
value; names with no captured value are absent. -/
theorem extract_args_spec (raw : RawArguments) (auth : String)
    (hnd : (raw.map Prod.fst).Nodup)
    (hauth : value_of raw "authorization_key" = some auth) :
    ∃ args : ArgumentSet,
      extract_args raw = .ok (auth, args) ∧
      lookupKey "authorization_key" args = none ∧
      ∀ k, k ≠ "authorization_key" → lookupKey k args = value_of raw k := by
  refine ⟨removeKey (first_vals raw) "authorization_key",
    extract_args_eq raw auth hnd hauth, ?_, ?_⟩
  · rw [extract_args_lookup raw _ hnd, if_pos rfl]
  · intro k hk
    rw [extract_args_lookup raw k hnd, if_neg hk]

/-- C1 witness: a concrete map with a two-valued auth name, a two-valued
`username`, and a captured-but-valueless flag. -/
theorem extract_args_spec_witness :
    (([("authorization_key", ["tok", "second"]),
       ("username", ["alice", "bob"]),
       ("flag", [])] : RawArguments).map Prod.fst).Nodup ∧
    value_of [("authorization_key", ["tok", "second"]),
       ("username", ["alice", "bob"]), ("flag", [])] "authorization_key" =
      some "tok" ∧
    ∃ args : ArgumentSet,
      extract_args [("authorization_key", ["tok", "second"]),
          ("username", ["alice", "bob"]), ("flag", [])] = .ok ("tok", args) ∧
      lookupKey "authorization_key" args = none ∧
      ∀ k, k ≠ "authorization_key" →
        lookupKey k args =
          value_of [("authorization_key", ["tok", "second"]),
            ("username", ["alice", "bob"]), ("flag", [])] k :=
  ⟨by decide, by decide,
    extract_args_spec _ "tok" (by decide) (by decide)⟩

/-- C2 evaluation: on a raw map lacking `authorization_key`, both
`extract_args` and `unflatten_pairs` reach the source's `Option::unwrap`
panic on the auth key — a process abort, embedded as the dedicated
`panicMissingAuthKey` constructor — rather than any recoverable
`MissingAuthToken` error value (the source's only error values are
`UsageErr` and `ClientErr`). -/
theorem extract_unflatten_missing_auth_panics :
    extract_args [("username", ["alice"])] =
      .error .panicMissingAuthKey ∧
    unflatten_pairs [("halve", ["a", "b"])] =
      .error .panicMissingAuthKey :=
  ⟨rfl, rfl⟩

/-! ### Pair-map lemmas (for `unflatten_pairs`) -/

/-- Index-based reading of the flat token list: the pairs
`(l[2*i], l[2*i+1])` for `i < ⌊length/2⌋`, i.e. exactly the claim's
`{k1:v1, …, kn:vn}` reading with a trailing odd token ignored. -/
def pairList (l : List String) : List (String × String) :=
  (List.range (l.length / 2)).map (fun i => (l.getD (2 * i) "", l.getD (2 * i + 1) ""))

/-- The source's 2-window traversal produces exactly the index-based
pairs. -/
theorem chunk_pairs_eq_pairList_aux :
    ∀ (n : Nat) (l : List String), l.length ≤ n →
      chunk_pairs l = pairList l := by
  intro n
  induction n with
  | zero =>
    intro l hl
    have h : l = [] := List.eq_nil_of_length_eq_zero (Nat.le_zero.mp hl)
    subst h
    rfl
  | succ n ih =>
    intro l hl
    match l with
    | [] => rfl
    | [x] =>
      show ([] : List (String × String)) = pairList [x]
      simp [pairList]
    | a :: b :: rest =>
      have hr : rest.length ≤ n := by
        simp only [List.length_cons] at hl
        omega
      have h2 : (a :: b :: rest).length / 2 = rest.length / 2 + 1 := by
        simp only [List.length_cons]
        omega
      show (a, b) :: chunk_pairs rest = pairList (a :: b :: rest)
      rw [ih rest hr]
      unfold pairList
      rw [h2, List.range_succ_eq_map, List.map_cons, List.map_map]
      congr 1

/-- The source's 2-window traversal produces exactly the index-based
pairs. -/
theorem chunk_pairs_eq_pairList (l : List String) :
    chunk_pairs l = pairList l :=
  chunk_pairs_eq_pairList_aux l.length l le_rfl

/-- `chunk_pairs` keeps one pair per complete 2-window. -/
theorem chunk_pairs_length (l : List String) :
    (chunk_pairs l).length = l.length / 2 := by
  rw [chunk_pairs_eq_pairList]
  simp [pairList]

/-- First-defined choice between two optional values. -/
def firstSome (a b : Option String) : Option String :=
  match a with
  | some v => some v
  | none => b

/-- Lookup distributes over append, preferring the left part. -/
theorem lookupKey_append (k : String) (l1 l2 : ArgumentSet) :
    lookupKey k (l1 ++ l2) = firstSome (lookupKey k l1) (lookupKey k l2) := by
  induction l1 with
  | nil => simp [lookupKey, firstSome]
  | cons kv rest ih =>
    obtain ⟨k', v⟩ := kv
    by_cases hk : k' = k
    · simp only [List.cons_append, lookupKey, if_pos hk, firstSome]
    · simp only [List.cons_append, lookupKey, if_neg hk]
      exact ih

/-- `insert_pair` binds its key and leaves every other key alone. -/
theorem lookupKey_insert_pair (m : ArgumentSet) (k' v' k : String) :
    lookupKey k (insert_pair m k' v') =
      if k = k' then some v' else lookupKey k m := by
  unfold insert_pair
  rw [lookupKey_append, lookupKey_removeKey]
  by_cases hk : k = k'
  · rw [if_pos hk, if_pos hk]
    simp [firstSome, lookupKey, hk]
  · rw [if_neg hk, if_neg hk]
    have hne : ¬(k' = k) := fun h => hk h.symm
    cases h : lookupKey k m <;>
      simp [firstSome, h, lookupKey, if_neg hne]

/-- Folding `insert_pair` over a pair list: the latest binding of a key
wins, then whatever the accumulator held. -/
theorem lookupKey_foldl_insert (ps : List (String × String)) :
    ∀ (m : ArgumentSet) (k : String),
      lookupKey k (ps.foldl (fun m kv => insert_pair m kv.1 kv.2) m) =
        firstSome (lookupKey k ps.reverse) (lookupKey k m) := by
  induction ps with
  | nil => intro m k; simp [lookupKey, firstSome]
  | cons kv ps ih =>
    intro m k
    obtain ⟨a, b⟩ := kv
    simp only [List.foldl_cons, List.reverse_cons]
    rw [ih, lookupKey_append, lookupKey_insert_pair]
    by_cases hk : k = a
    · subst hk
      cases hX : lookupKey k ps.reverse <;>
        simp [firstSome, lookupKey, hX]
    · have hka : ¬(a = k) := fun h => hk h.symm
      cases hX : lookupKey k ps.reverse <;>
        simp [firstSome, lookupKey, hX, if_neg hk, if_neg hka]

/-- Looking up in the built pair map is looking up the latest complete
2-window with that key. -/
theorem lookupKey_build_pairs (l : List String) (k : String) :
    lookupKey k (build_pairs l) = lookupKey k (chunk_pairs l).reverse := by
  unfold build_pairs
  rw [lookupKey_foldl_insert]
  cases h : lookupKey k (chunk_pairs l).reverse <;>
    simp [firstSome, lookupKey]

/-- Removing an absent key is the identity. -/
theorem removeKey_of_not_mem (m : ArgumentSet) (k : String)
    (h : k ∉ m.map Prod.fst) : removeKey m k = m := by
  induction m with
  | nil => rfl
  | cons kv rest ih =>
    obtain ⟨k', v⟩ := kv
    simp only [List.map_cons, List.mem_cons] at h
    push_neg at h
    simp only [removeKey]
    rw [if_neg (fun hk => h.1 hk.symm), ih h.2]

/-- Inserting pairwise-distinct fresh keys grows the map by one entry
each. -/
theorem length_foldl_insert (ps : List (String × String)) :
    ∀ (m : ArgumentSet), (ps.map Prod.fst).Nodup →
      (∀ x ∈ ps.map Prod.fst, x ∉ m.map Prod.fst) →
      (ps.foldl (fun m kv => insert_pair m kv.1 kv.2) m).length =
        m.length + ps.length := by
  induction ps with
  | nil => intro m _ _; simp
  | cons kv ps ih =>
    intro m hnd hfresh
    obtain ⟨a, b⟩ := kv
    simp only [List.map_cons, List.nodup_cons] at hnd
    have ha : a ∉ m.map Prod.fst := hfresh a (by simp)
    have hins : insert_pair m a b = m ++ [(a, b)] := by
      unfold insert_pair
      rw [removeKey_of_not_mem m a ha]
    have hfresh2 : ∀ x ∈ ps.map Prod.fst,
        x ∉ (m ++ [(a, b)]).map Prod.fst := by
      intro x hx
      have hxm : x ∉ m.map Prod.fst := by
        refine hfresh x ?_
        simp only [List.map_cons, List.mem_cons]
        exact Or.inr hx
      have hxa : ¬(x = a) := fun h => hnd.1 (h ▸ hx)
      simp only [List.map_append, List.map_cons, List.map_nil,
        List.mem_append, List.mem_cons, List.not_mem_nil, or_false]
      push_neg
      exact ⟨hxm, hxa⟩
    simp only [List.foldl_cons, hins]
    rw [ih (m ++ [(a, b)]) hnd.2 hfresh2]
    simp only [List.length_append, List.length_cons, List.length_nil]
    omega


/-- Dropping the final unpaired token of an odd-length list leaves the
2-window traversal unchanged. -/
theorem chunk_pairs_take (n : Nat) :
    ∀ (l : List String), l.length = 2 * n + 1 →
      chunk_pairs (l.take (2 * n)) = chunk_pairs l := by
  induction n with
  | zero =>
    intro l hl
    cases l with
    | nil => simp at hl
    | cons a t =>
      cases t with
      | nil => rfl
      | cons b t' =>
        simp only [List.length_cons] at hl
        omega
  | succ n ih =>
    intro l hl
    cases l with
    | nil => simp at hl
    | cons a t =>
      cases t with
      | nil =>
        simp only [List.length_cons, List.length_nil] at hl
        omega
      | cons b rest =>
        have hr : rest.length = 2 * n + 1 := by
          simp only [List.length_cons] at hl
          omega
        have e : 2 * Nat.succ n = (2 * n + 1) + 1 := by omega
        rw [e]
        simp only [List.take_succ_cons]
        show (a, b) :: chunk_pairs (rest.take (2 * n)) =
          (a, b) :: chunk_pairs rest
        rw [ih rest hr]

/-- The pair map built from an odd-length list is the one built from its
even-length prefix. -/
theorem build_pairs_take (l : List String) (n : Nat)
    (h : l.length = 2 * n + 1) :
    build_pairs (l.take (2 * n)) = build_pairs l := by
  unfold build_pairs
  rw [chunk_pairs_take n l h]

/-- With pairwise-distinct window keys, the built map has exactly one
entry per complete 2-window. -/
theorem build_pairs_length (l : List String)
    (hnd : ((pairList l).map Prod.fst).Nodup) :
    (build_pairs l).length = l.length / 2 := by
  have h1 : ((chunk_pairs l).map Prod.fst).Nodup := by
    rw [chunk_pairs_eq_pairList]
    exact hnd
  have h2 : ∀ x ∈ (chunk_pairs l).map Prod.fst,
      x ∉ (([] : ArgumentSet)).map Prod.fst := by
    intro x _
    simp
  unfold build_pairs
  rw [length_foldl_insert (chunk_pairs l) [] h1 h2, chunk_pairs_length]
  simp

/-- C3: when the auth key is present, `unflatten_pairs` succeeds; an
absent `halve` list yields the empty map; a present list yields the map
whose binding for each key is the latest complete 2-window
`(l[2*i], l[2*i+1])` carrying that key (later duplicates overwrite
earlier ones, every other key absent), with exactly ⌊length/2⌋ entries
when the window keys are distinct; and an odd-length list of length
`2*n+1` yields exactly the map built from its even-length prefix of
length `2*n`, the final token being dropped without error. -/
theorem unflatten_pairs_spec (raw : RawArguments) (auth : String)
    (hauth : value_of raw "authorization_key" = some auth) :
    ∃ pairs : ArgumentSet,
      unflatten_pairs raw = .ok (auth, pairs) ∧
      (values_of raw "halve" = none → pairs = []) ∧
      ∀ l, values_of raw "halve" = some l →
        (∀ k, lookupKey k pairs = lookupKey k (pairList l).reverse) ∧
        (((pairList l).map Prod.fst).Nodup → pairs.length = l.length / 2) ∧
        ∀ n, l.length = 2 * n + 1 → pairs = build_pairs (l.take (2 * n)) := by
  cases hh : values_of raw "halve" with
  | none =>
    have he : unflatten_pairs raw = .ok (auth, []) := by
      unfold unflatten_pairs
      rw [hh, hauth]
    refine ⟨[], he, fun _ => rfl, ?_⟩
    intro l hl
    exact absurd hl (by simp)
  | some halves =>
    have he : unflatten_pairs raw = .ok (auth, build_pairs halves) := by
      unfold unflatten_pairs
      rw [hh, hauth]
    refine ⟨build_pairs halves, he, ?_, ?_⟩
    · intro h
      exact absurd h (by simp)
    · intro l hl
      have hlh : halves = l := Option.some.inj hl
      subst hlh
      refine ⟨?_, ?_, ?_⟩
      · intro k
        rw [lookupKey_build_pairs, chunk_pairs_eq_pairList]
      · intro hnd
        exact build_pairs_length halves hnd
      · intro n hn
        exact (build_pairs_take halves n hn).symm

/-- A sample raw map for `unflatten_pairs`: an odd-length `halve` list
with a duplicated key. -/
def sampleHalveRaw : RawArguments :=
  [("authorization_key", ["tok"]),
   ("halve", ["a", "1", "b", "2", "a", "3", "z"])]

/-- C3 witness: the sample list has length 7, duplicate key `a`, and a
trailing token `z`. -/
theorem unflatten_pairs_spec_witness :
    value_of sampleHalveRaw "authorization_key" = some "tok" ∧
    ∃ pairs : ArgumentSet,
      unflatten_pairs sampleHalveRaw = .ok ("tok", pairs) ∧
      (values_of sampleHalveRaw "halve" = none → pairs = []) ∧
      ∀ l, values_of sampleHalveRaw "halve" = some l →
        (∀ k, lookupKey k pairs = lookupKey k (pairList l).reverse) ∧
        (((pairList l).map Prod.fst).Nodup → pairs.length = l.length / 2) ∧
        ∀ n, l.length = 2 * n + 1 → pairs = build_pairs (l.take (2 * n)) :=
  ⟨by decide, unflatten_pairs_spec sampleHalveRaw "tok" (by decide)⟩

/-! ### Handler claim theorems -/

/-- Bind on a successful `Except` applies the continuation. -/
theorem except_bind_ok {e a b : Type} (x : a) (f : a → Except e b) :
    (Except.ok x >>= f : Except e b) = f x := rfl

/-- C4: `accounts create` with username and auth present: without the
`overwrite` flag the request is POST {url}/accounts/{username} and the
JSON body still carries the username field; with the flag it is PUT
{url}/accounts with no username path segment (same body either way). -/
theorem post_or_put_accounts_spec (url : String) (raw : RawArguments)
    (auth user : String)
    (hnd : (raw.map Prod.fst).Nodup)
    (hauth : value_of raw "authorization_key" = some auth)
    (huser : value_of raw "username" = some user) :
    ∃ body : ArgumentSet,
      lookupKey "username" body = some user ∧
      (is_present raw "overwrite" = false →
        post_or_put_accounts url raw =
          .ok ⟨.post, url ++ "/accounts/" ++ user, some auth, .json body⟩) ∧
      (is_present raw "overwrite" = true →
        post_or_put_accounts url raw =
          .ok ⟨.put, url ++ "/accounts", some auth, .json body⟩) := by
  have he := extract_args_eq raw auth hnd hauth
  have hne : ¬("username" = "authorization_key") := by decide
  have hu : lookupKey "username"
      (removeKey (first_vals raw) "authorization_key") = some user := by
    rw [extract_args_lookup raw _ hnd, if_neg hne]
    exact huser
  refine ⟨removeKey (first_vals raw) "authorization_key", hu, ?_, ?_⟩
  · intro hov
    unfold post_or_put_accounts
    rw [he]
    simp [except_bind_ok, hov, hu]
  · intro hov
    unfold post_or_put_accounts
    rw [he]
    simp [except_bind_ok, hov]

/-- A sample `accounts create` raw map without the overwrite flag. -/
def sampleCreateRaw : RawArguments :=
  [("authorization_key", ["secret"]), ("username", ["alice"]),
   ("asset_code", ["USD"])]

/-- C4 witness: concrete create invocation without `overwrite`. -/
theorem post_or_put_accounts_spec_witness :
    (sampleCreateRaw.map Prod.fst).Nodup ∧
    value_of sampleCreateRaw "authorization_key" = some "secret" ∧
    value_of sampleCreateRaw "username" = some "alice" ∧
    ∃ body : ArgumentSet,
      lookupKey "username" body = some "alice" ∧
      (is_present sampleCreateRaw "overwrite" = false →
        post_or_put_accounts "http://n" sampleCreateRaw =
          .ok ⟨.post, "http://n/accounts/alice", some "secret", .json body⟩) ∧
      (is_present sampleCreateRaw "overwrite" = true →
        post_or_put_accounts "http://n" sampleCreateRaw =
          .ok ⟨.put, "http://n/accounts", some "secret", .json body⟩) :=
  ⟨by decide, by decide, by decide,
    post_or_put_accounts_spec "http://n" sampleCreateRaw "secret" "alice"
      (by decide) (by decide) (by decide)⟩

/-- C10: in `accounts create` with auth present and the username argument
missing, the handler fails exactly when the `overwrite` flag is absent:
with the flag the request is built without looking the username up, and
without it the `HashMap` index on `username` panics. -/
theorem post_or_put_accounts_username_requirement (url : String)
    (raw : RawArguments) (auth : String)
    (hnd : (raw.map Prod.fst).Nodup)
    (hauth : value_of raw "authorization_key" = some auth)
    (huser : value_of raw "username" = none) :
    ((∃ e, post_or_put_accounts url raw = .error e) ↔
      is_present raw "overwrite" = false) ∧
    (is_present raw "overwrite" = false →
      post_or_put_accounts url raw = .error (.panicMissingArg "username")) ∧
    (is_present raw "overwrite" = true →
      post_or_put_accounts url raw =
        .ok ⟨.put, url ++ "/accounts", some auth,
             .json (removeKey (first_vals raw) "authorization_key")⟩) := by
  have he := extract_args_eq raw auth hnd hauth
  have hne : ¬("username" = "authorization_key") := by decide
  have hu : lookupKey "username"
      (removeKey (first_vals raw) "authorization_key") = none := by
    rw [extract_args_lookup raw _ hnd, if_neg hne]
    exact huser
  have h1 : is_present raw "overwrite" = false →
      post_or_put_accounts url raw = .error (.panicMissingArg "username") := by
    intro hov
    unfold post_or_put_accounts
    rw [he]
    simp [except_bind_ok, hov, hu]
  have h2 : is_present raw "overwrite" = true →
      post_or_put_accounts url raw =
        .ok ⟨.put, url ++ "/accounts", some auth,
             .json (removeKey (first_vals raw) "authorization_key")⟩ := by
    intro hov
    unfold post_or_put_accounts
    rw [he]
    simp [except_bind_ok, hov]
  refine ⟨⟨?_, fun hov => ⟨_, h1 hov⟩⟩, h1, h2⟩
  rintro ⟨e, hee⟩
  cases hb : is_present raw "overwrite" with
  | false => rfl
  | true =>
    rw [h2 hb] at hee
    exact absurd hee (by simp)

/-- A sample `accounts create` raw map with the overwrite flag (captured
with no value) and no username. -/
def sampleOverwriteRaw : RawArguments :=
  [("authorization_key", ["secret"]), ("overwrite", [])]

/-- C10 witness: overwrite present, username absent — no failure. -/
theorem post_or_put_accounts_username_requirement_witness :
    (sampleOverwriteRaw.map Prod.fst).Nodup ∧
    value_of sampleOverwriteRaw "authorization_key" = some "secret" ∧
    value_of sampleOverwriteRaw "username" = none ∧
    (((∃ e, post_or_put_accounts "http://n" sampleOverwriteRaw = .error e) ↔
       is_present sampleOverwriteRaw "overwrite" = false) ∧
     (is_present sampleOverwriteRaw "overwrite" = false →
       post_or_put_accounts "http://n" sampleOverwriteRaw =
         .error (.panicMissingArg "username")) ∧
     (is_present sampleOverwriteRaw "overwrite" = true →
       post_or_put_accounts "http://n" sampleOverwriteRaw =
         .ok ⟨.put, "http://n/accounts", some "secret",
              .json (removeKey (first_vals sampleOverwriteRaw)
                "authorization_key")⟩)) :=
  ⟨by decide, by decide, by decide,
    post_or_put_accounts_username_requirement "http://n" sampleOverwriteRaw
      "secret" (by decide) (by decide) (by decide)⟩

/-- C6: `pay` with sender and auth present resolves to POST
{url}/accounts/{sender}/payments, the bearer material is the sender
username, a colon, and the auth token concatenated, and the JSON body
excludes the sender_username key. -/
theorem post_account_payments_spec (url : String) (raw : RawArguments)
    (auth user : String)
    (hnd : (raw.map Prod.fst).Nodup)
    (hauth : value_of raw "authorization_key" = some auth)
    (huser : value_of raw "sender_username" = some user) :
    ∃ body : ArgumentSet,
      lookupKey "sender_username" body = none ∧
      post_account_payments url raw =
        .ok ⟨.post, url ++ "/accounts/" ++ user ++ "/payments",
             some (user ++ ":" ++ auth), .json body⟩ := by
  have he := extract_args_eq raw auth hnd hauth
  have hne : ¬("sender_username" = "authorization_key") := by decide
  have hu : lookupKey "sender_username"
      (removeKey (first_vals raw) "authorization_key") = some user := by
    rw [extract_args_lookup raw _ hnd, if_neg hne]
    exact huser
  refine ⟨removeKey (removeKey (first_vals raw) "authorization_key")
    "sender_username", ?_, ?_⟩
  · rw [lookupKey_removeKey, if_pos rfl]
  · unfold post_account_payments
    rw [he]
    simp [except_bind_ok, hu]

/-- A sample `pay` raw map. -/
def samplePayRaw : RawArguments :=
  [("authorization_key", ["secret"]), ("sender_username", ["alice"]),
   ("amount", ["500"])]

/-- C6 witness: for username `alice` and token `secret`, the bearer
material is literally `alice:secret`. -/
theorem post_account_payments_spec_witness :
    (samplePayRaw.map Prod.fst).Nodup ∧
    value_of samplePayRaw "authorization_key" = some "secret" ∧
    value_of samplePayRaw "sender_username" = some "alice" ∧
    ∃ body : ArgumentSet,
      lookupKey "sender_username" body = none ∧
      post_account_payments "http://n" samplePayRaw =
        .ok ⟨.post, "http://n/accounts/alice/payments",
             some "alice:secret", .json body⟩ :=
  ⟨by decide, by decide, by decide,
    post_account_payments_spec "http://n" samplePayRaw "secret" "alice"
      (by decide) (by decide) (by decide)⟩

/-- C7: `routes set` with prefix and destination present resolves to PUT
{url}/routes/static/{prefix} with the body being the raw destination
string (the `Body.raw` constructor — reqwest `.body(...)`, not
`.json`). -/
theorem put_route_static_spec (url : String) (raw : RawArguments)
    (auth pre dest : String)
    (hnd : (raw.map Prod.fst).Nodup)
    (hauth : value_of raw "authorization_key" = some auth)
    (hpre : value_of raw "prefix" = some pre)
    (hdest : value_of raw "destination" = some dest) :
    put_route_static url raw =
      .ok ⟨.put, url ++ "/routes/static/" ++ pre, some auth, .raw dest⟩ := by
  have he := extract_args_eq raw auth hnd hauth
  have hnep : ¬("prefix" = "authorization_key") := by decide
  have hned : ¬("destination" = "authorization_key") := by decide
  have hp : lookupKey "prefix"
      (removeKey (first_vals raw) "authorization_key") = some pre := by
    rw [extract_args_lookup raw _ hnd, if_neg hnep]
    exact hpre
  have hd : lookupKey "destination"
      (removeKey (first_vals raw) "authorization_key") = some dest := by
    rw [extract_args_lookup raw _ hnd, if_neg hned]
    exact hdest
  unfold put_route_static
  rw [he]
  simp [except_bind_ok, hp, hd]

/-- A sample `routes set` raw map. -/
def sampleRouteRaw : RawArguments :=
  [("authorization_key", ["secret"]), ("prefix", ["g.usd"]),
   ("destination", ["peer.usd"])]

/-- C7 witness: prefix `g.usd`, destination `peer.usd` — PUT
/routes/static/g.usd with raw body `peer.usd`. -/
theorem put_route_static_spec_witness :
    (sampleRouteRaw.map Prod.fst).Nodup ∧
    value_of sampleRouteRaw "authorization_key" = some "secret" ∧
    value_of sampleRouteRaw "prefix" = some "g.usd" ∧
    value_of sampleRouteRaw "destination" = some "peer.usd" ∧
    put_route_static "http://n" sampleRouteRaw =
      .ok ⟨.put, "http://n/routes/static/g.usd", some "secret",
           .raw "peer.usd"⟩ :=
  ⟨by decide, by decide, by decide, by decide,
    put_route_static_spec "http://n" sampleRouteRaw "secret" "g.usd"
      "peer.usd" (by decide) (by decide) (by decide) (by decide)⟩

/-! ### Dispatch claim theorems -/

/-- C5: an `accounts update` invocation with username and auth present
resolves to PUT {url}/accounts/{username} when the `is_admin` flag is
present and PUT {url}/accounts/{username}/settings otherwise; in both
cases the JSON body excludes the username field. -/
theorem run_accounts_update_spec (url : String)
    (topargs aargs raw : RawArguments) (sub2 : Option (String × Matches))
    (auth user : String)
    (hurl : value_of topargs "node_url" = some url)
    (hnd : (raw.map Prod.fst).Nodup)
    (hauth : value_of raw "authorization_key" = some auth)
    (huser : value_of raw "username" = some user) :
    ∃ body : ArgumentSet,
      lookupKey "username" body = none ∧
      run (.mk topargs (some ("accounts",
          .mk aargs (some ("update", .mk raw sub2))))) =
        .ok ⟨.put,
          (if is_present raw "is_admin"
           then url ++ "/accounts/" ++ user
           else url ++ "/accounts/" ++ user ++ "/settings"),
          some auth, .json body⟩ := by
  have he := extract_args_eq raw auth hnd hauth
  have hne : ¬("username" = "authorization_key") := by decide
  have hu : lookupKey "username"
      (removeKey (first_vals raw) "authorization_key") = some user := by
    rw [extract_args_lookup raw _ hnd, if_neg hne]
    exact huser
  have hrun : run (.mk topargs (some ("accounts",
      .mk aargs (some ("update", .mk raw sub2))))) =
      if is_present raw "is_admin" then put_account url raw
      else put_account_settings url raw := by
    unfold run
    simp only [Matches.args, Matches.sub]
    rw [hurl]
    simp [dispatch_accounts, Matches.sub, Matches.args]
  refine ⟨removeKey (removeKey (first_vals raw) "authorization_key")
    "username", ?_, ?_⟩
  · rw [lookupKey_removeKey, if_pos rfl]
  · rw [hrun]
    by_cases hadm : is_present raw "is_admin" = true
    · rw [if_pos hadm, if_pos hadm]
      unfold put_account
      rw [he]
      simp [except_bind_ok, hu]
    · rw [if_neg hadm, if_neg hadm]
      unfold put_account_settings
      rw [he]
      simp [except_bind_ok, hu]

/-- A sample `accounts update` raw map without the `is_admin` flag. -/
def sampleUpdateRaw : RawArguments :=
  [("authorization_key", ["secret"]), ("username", ["bob"]),
   ("asset_code", ["USD"])]

/-- C5 witness: update without `is_admin` goes to the settings path with
no username in the body. -/
theorem run_accounts_update_spec_witness :
    value_of [("node_url", ["http://n"])] "node_url" = some "http://n" ∧
    (sampleUpdateRaw.map Prod.fst).Nodup ∧
    value_of sampleUpdateRaw "authorization_key" = some "secret" ∧
    value_of sampleUpdateRaw "username" = some "bob" ∧
    ∃ body : ArgumentSet,
      lookupKey "username" body = none ∧
      run (.mk [("node_url", ["http://n"])] (some ("accounts",
          .mk [] (some ("update", .mk sampleUpdateRaw none))))) =
        .ok ⟨.put,
          (if is_present sampleUpdateRaw "is_admin"
           then "http://n" ++ "/accounts/" ++ "bob"
           else "http://n" ++ "/accounts/" ++ "bob" ++ "/settings"),
          some "secret", .json body⟩ :=
  ⟨by decide, by decide, by decide, by decide,
    run_accounts_update_spec "http://n" [("node_url", ["http://n"])] []
      sampleUpdateRaw none "secret" "bob"
      (by decide) (by decide) (by decide) (by decide)⟩

/-- C8: `rates list`, `routes list`, and `status` resolve to fixed
unauthenticated GET requests whose bearer field is `none`, whatever the
lower-level argument maps (including any supplied auth value) contain —
two invocations differing only there produce the same request. -/
theorem run_unauthenticated_spec (url : String) (topargs : RawArguments)
    (hurl : value_of topargs "node_url" = some url) :
    (∀ (a : RawArguments) (m2 : Matches),
      run (.mk topargs (some ("rates", .mk a (some ("list", m2))))) =
        .ok ⟨.get, url ++ "/rates", none, .empty⟩) ∧
    (∀ (a : RawArguments) (m2 : Matches),
      run (.mk topargs (some ("routes", .mk a (some ("list", m2))))) =
        .ok ⟨.get, url ++ "/routes", none, .empty⟩) ∧
    (∀ (raw : RawArguments) (s1 : Option (String × Matches)),
      run (.mk topargs (some ("status", .mk raw s1))) =
        .ok ⟨.get, url ++ "/", none, .empty⟩) := by
  refine ⟨?_, ?_, ?_⟩
  · intro a m2
    unfold run
    simp only [Matches.args, Matches.sub]
    rw [hurl]
    simp [dispatch_rates, get_rates, Matches.sub]
  · intro a m2
    unfold run
    simp only [Matches.args, Matches.sub]
    rw [hurl]
    simp [dispatch_routes, get_routes, Matches.sub]
  · intro raw s1
    unfold run
    simp only [Matches.args, Matches.sub]
    rw [hurl]
    simp [get_root]

/-- C8 witness: a supplied auth value in the lower argument maps does not
produce a bearer header for `rates list`, `routes list`, or `status`. -/
theorem run_unauthenticated_spec_witness :
    value_of [("node_url", ["http://n"])] "node_url" = some "http://n" ∧
    run (.mk [("node_url", ["http://n"])] (some ("rates",
        .mk [] (some ("list", .mk [("authorization_key", ["secret"])] none))))) =
      .ok ⟨.get, "http://n/rates", none, .empty⟩ ∧
    run (.mk [("node_url", ["http://n"])] (some ("routes",
        .mk [] (some ("list", .mk [("authorization_key", ["secret"])] none))))) =
      .ok ⟨.get, "http://n/routes", none, .empty⟩ ∧
    run (.mk [("node_url", ["http://n"])]
        (some ("status", .mk [("authorization_key", ["secret"])] none))) =
      .ok ⟨.get, "http://n/", none, .empty⟩ := by
  have h := run_unauthenticated_spec "http://n" [("node_url", ["http://n"])]
    (by decide)
  exact ⟨by decide,
    h.1 [] (.mk [("authorization_key", ["secret"])] none),
    h.2.1 [] (.mk [("authorization_key", ["secret"])] none),
    h.2.2 [("authorization_key", ["secret"])] none⟩

/-- C9: with no top-level subcommand, or with a category that requires an
action given none, dispatch returns the source's `UsageErr` value; an
action name that a known category's match does not list reaches the
`panic!("Unhandled ... subcommand")` arm, embedded as `panicUnhandled`,
which is a different constructor from `usageErr`. -/
theorem run_dispatch_errors_spec (url : String) (topargs : RawArguments)
    (hurl : value_of topargs "node_url" = some url) :
    run (.mk topargs none) = .error (.usageErr "ilp-cli help") ∧
    (∀ a : RawArguments, run (.mk topargs (some ("accounts", .mk a none))) =
      .error (.usageErr "ilp-cli help accounts")) ∧
    (∀ a : RawArguments, run (.mk topargs (some ("rates", .mk a none))) =
      .error (.usageErr "ilp-cli help rates")) ∧
    (∀ a : RawArguments, run (.mk topargs (some ("routes", .mk a none))) =
      .error (.usageErr "ilp-cli help routes")) ∧
    (∀ a : RawArguments,
      run (.mk topargs (some ("settlement-engines", .mk a none))) =
        .error (.usageErr "ilp-cli help settlement-engines")) ∧
    (∀ (c : String) (a : RawArguments) (m2 : Matches),
      c ∉ (["balance", "create", "delete", "incoming-payments", "info",
        "list", "update"] : List String) →
      run (.mk topargs (some ("accounts", .mk a (some (c, m2))))) =
        .error (.panicUnhandled "ilp-cli accounts" c)) ∧
    (∀ (c : String) (a : RawArguments) (m2 : Matches),
      c ∉ (["list", "set-all"] : List String) →
      run (.mk topargs (some ("rates", .mk a (some (c, m2))))) =
        .error (.panicUnhandled "ilp-cli rates" c)) ∧
    (∀ (c : String) (a : RawArguments) (m2 : Matches),
      c ∉ (["list", "set", "set-all"] : List String) →
      run (.mk topargs (some ("routes", .mk a (some (c, m2))))) =
        .error (.panicUnhandled "ilp-cli routes" c)) ∧
    (∀ (c : String) (a : RawArguments) (m2 : Matches),
      c ∉ (["set-all"] : List String) →
      run (.mk topargs (some ("settlement-engines", .mk a (some (c, m2))))) =
        .error (.panicUnhandled "ilp-cli settlement-engines" c)) ∧
    (∀ (h c x : String),
      CliError.usageErr h ≠ CliError.panicUnhandled c x) := by
  refine ⟨?_, ?_, ?_, ?_, ?_, ?_, ?_, ?_, ?_, ?_⟩
  · unfold run
    simp only [Matches.args, Matches.sub]
    rw [hurl]
  · intro a
    unfold run
    simp only [Matches.args, Matches.sub]
    rw [hurl]
    simp [dispatch_accounts, Matches.sub]
  · intro a
    unfold run
    simp only [Matches.args, Matches.sub]
    rw [hurl]
    simp [dispatch_rates, Matches.sub]
  · intro a
    unfold run
    simp only [Matches.args, Matches.sub]
    rw [hurl]
    simp [dispatch_routes, Matches.sub]
  · intro a
    unfold run
    simp only [Matches.args, Matches.sub]
    rw [hurl]
    simp [dispatch_settlement_engines, Matches.sub]
  · intro c a m2 hc
    unfold run
    simp only [Matches.args, Matches.sub]
    rw [hurl]
    simp only [List.mem_cons, List.mem_singleton, not_or] at hc
    obtain ⟨h1, h2, h3, h4, h5, h6, h7, _⟩ := hc
    simp [dispatch_accounts, Matches.sub, h1, h2, h3, h4, h5, h6, h7]
  · intro c a m2 hc
    unfold run
    simp only [Matches.args, Matches.sub]
    rw [hurl]
    simp only [List.mem_cons, List.mem_singleton, not_or] at hc
    obtain ⟨h1, h2, _⟩ := hc
    simp [dispatch_rates, Matches.sub, h1, h2]
  · intro c a m2 hc
    unfold run
    simp only [Matches.args, Matches.sub]
    rw [hurl]
    simp only [List.mem_cons, List.mem_singleton, not_or] at hc
    obtain ⟨h1, h2, h3, _⟩ := hc
    simp [dispatch_routes, Matches.sub, h1, h2, h3]
  · intro c a m2 hc
    unfold run
    simp only [Matches.args, Matches.sub]
    rw [hurl]
    simp only [List.mem_cons, List.mem_singleton, not_or] at hc
    obtain ⟨h1, _⟩ := hc
    simp [dispatch_settlement_engines, Matches.sub, h1]
  · intro h c x heq
    exact nomatch heq

/-- C9 witness: no category, `accounts` with no action, and the unknown
action `frobnicate` under `accounts`, at a concrete node url. -/
theorem run_dispatch_errors_spec_witness :
    value_of [("node_url", ["http://n"])] "node_url" = some "http://n" ∧
    run (.mk [("node_url", ["http://n"])] none) =
      .error (.usageErr "ilp-cli help") ∧
    run (.mk [("node_url", ["http://n"])] (some ("accounts", .mk [] none))) =
      .error (.usageErr "ilp-cli help accounts") ∧
    ("frobnicate" ∉ (["balance", "create", "delete", "incoming-payments",
      "info", "list", "update"] : List String)) ∧
    run (.mk [("node_url", ["http://n"])] (some ("accounts",
        .mk [] (some ("frobnicate", .mk [] none))))) =
      .error (.panicUnhandled "ilp-cli accounts" "frobnicate") ∧
    CliError.usageErr "ilp-cli help" ≠
      CliError.panicUnhandled "ilp-cli accounts" "frobnicate" := by
  have h := run_dispatch_errors_spec "http://n" [("node_url", ["http://n"])]
    (by decide)
  exact ⟨by decide, h.1, h.2.1 [], by decide,
    h.2.2.2.2.2.1 "frobnicate" [] (.mk [] none) (by decide),
    h.2.2.2.2.2.2.2.2.2 "ilp-cli help" "ilp-cli accounts" "frobnicate"⟩

end IlpCli
